import Mathlib

/-!
Shallow embedding of the lineage-graph extraction and subgraph-filtering
routines of `app.py` (`determine_layer`, `extract_source_system`,
`get_source_table_name`, `extract_lineage_graph`, `get_lineage_subgraph`).

Python dicts are modelled as insertion-ordered association lists
(`List (String × Node)`); optional JSON fields become `Option`; the
Python string sentinel `"N/A"` used for missing statistics becomes
`StatVal.na`.  The `namespace` key is rendered as `nspace` because
`namespace` is a Lean keyword.
-/

namespace Lineage

/-- One column entry of an OpenLineage schema facet (`facets.schema.fields`). -/
structure SchemaField where
  name : String
  ftype : String
  description : Option String
deriving DecidableEq, Repr

/-- The `facets.outputStatistics` facet of a dataset reference; both keys are
optional, mirroring Python `dict.get`. -/
structure OutputStatistics where
  rowCount : Option Int
  size : Option Int
deriving DecidableEq, Repr

/-- The `facets.schema` facet; its `fields` key is optional. -/
structure SchemaFacet where
  fields : Option (List SchemaField)
deriving DecidableEq, Repr

/-- The `facets` object of a dataset reference. -/
structure Facets where
  schema : Option SchemaFacet
  outputStatistics : Option OutputStatistics
deriving DecidableEq, Repr

/-- A dataset reference as found in the `inputs` / `outputs` arrays of an
event; every key may be missing (Python `dict.get` with a default). -/
structure DatasetRef where
  nspace : Option String
  name : Option String
  facets : Option Facets
deriving DecidableEq, Repr

/-- The `job` object of an event (`{name, namespace}`), each key optional. -/
structure Job where
  name : Option String
  nspace : Option String
deriving DecidableEq, Repr

/-- One OpenLineage run event; each key may be missing. -/
structure Event where
  job : Option Job
  eventTime : Option String
  inputs : Option (List DatasetRef)
  outputs : Option (List DatasetRef)
deriving DecidableEq, Repr

/-- The top-level object handed to `extract_lineage_graph`
(`lineage_data.get('events', [])`). -/
structure LineageData where
  events : Option (List Event)
deriving DecidableEq, Repr

/-- A statistics value stored in a node's details: either the Python string
sentinel `"N/A"` or a number. -/
inductive StatVal
  | na
  | num (n : Int)
deriving DecidableEq, Repr

/-- Node type tag: the `'type'` value of a node dict, `'job'` or `'dataset'`. -/
inductive NodeType
  | job
  | dataset
deriving DecidableEq, Repr

/-- The `details` sub-dict of a node.  Job nodes are created with
`namespace`/`event_time` and no `row_count`/`size`/`full_name` keys; dataset
nodes with `namespace`/`full_name`/`row_count`/`size` and no `event_time`.
`Option` models key absence, so that `.get('row_count', 'N/A')` is
`(row_count).getD StatVal.na`. -/
structure Details where
  nspace : String
  event_time : Option String
  full_name : Option String
  row_count : Option StatVal
  size : Option StatVal
deriving DecidableEq, Repr

/-- A graph node dict as built by `extract_lineage_graph`.  Job nodes carry
no `table_name` key, hence the `Option`. -/
structure Node where
  id : String
  label : String
  type : NodeType
  layer : String
  source_system : String
  table_name : Option String
  schema_fields : List SchemaField
  details : Details
deriving DecidableEq, Repr

/-- The accumulator of `extract_lineage_graph`: the insertion-ordered node
dict and the edge list. -/
structure GState where
  nodes : List (String × Node)
  edges : List (String × String)
deriving DecidableEq, Repr

/-- Check that `l` starts with `pat` (character lists). -/
def hasPrefixL : List Char → List Char → Bool
  | _, [] => true
  | [], _ :: _ => false
  | c :: cs, d :: ds => c = d && hasPrefixL cs ds

/-- Check that `pat` occurs as a contiguous substring of `l`
(Python `pat in l`; the empty pattern always matches). -/
def hasSubstr : List Char → List Char → Bool
  | [], pat => pat.isEmpty
  | c :: cs, pat => hasPrefixL (c :: cs) pat || hasSubstr cs pat

/-- Python substring containment `pat in s`. -/
def strContains (s pat : String) : Bool :=
  hasSubstr s.toList pat.toList

/-- Python `s.startswith(pat)`. -/
def strStartsWith (s pat : String) : Bool :=
  hasPrefixL s.toList pat.toList

/-- Python `name.split('.')[-1]`: the characters after the last `'.'`
(the whole string when no dot occurs). -/
def splitLastDot (s : String) : String :=
  String.mk (s.toList.foldl (fun acc c => if c = '.' then [] else acc ++ [c]) [])

/-- `determine_layer` from `app.py`: case-insensitive substring
classification of a dataset display name, first match wins. -/
def determine_layer (name : String) : String :=
  let name_lower := name.toLower
  if strContains name_lower "bronze" || strContains name_lower "raw" then "bronze"
  else if strContains name_lower "silver" || strContains name_lower "clean" then "silver"
  else if strContains name_lower "gold" || strContains name_lower "analytics" then "gold"
  else if ["postgres", "sqlserver", "mongodb", "public.", "dbo.", ".csv"].any
      (fun x => strContains name_lower x) then "source"
  else "unknown"

/-- `extract_source_system` from `app.py`. -/
def extract_source_system (nspace : String) : String :=
  if strContains nspace "postgres" then "PostgreSQL"
  else if strContains nspace "sqlserver" then "SQL Server"
  else if strContains nspace "mongodb" then "MongoDB"
  else if strContains nspace "file://" then "CSV Files"
  else if strContains nspace "s3://" then "Data Lake"
  else "Unknown"

/-- `get_source_table_name` from `app.py`. -/
def get_source_table_name (nspace name : String) : String :=
  if strStartsWith nspace "s3://" then name
  else if strContains name "." then splitLastDot name
  else name

/-- First-match lookup in the node dict (`nodes[k]` / `k in nodes`). -/
def lookupNode : List (String × Node) → String → Option Node
  | [], _ => none
  | (k, v) :: rest, key => if k = key then some v else lookupNode rest key

/-- In-place update of the entry at `key` (`nodes[key] = f nodes[key]`),
preserving insertion order. -/
def updateNode : List (String × Node) → String → (Node → Node) → List (String × Node)
  | [], _, _ => []
  | (k, v) :: rest, key, f =>
      if k = key then (k, f v) :: rest else (k, v) :: updateNode rest key f

/-- The keys of the node dict, in insertion order. -/
def nodeKeys (m : List (String × Node)) : List String :=
  m.map Prod.fst

/-- Python `event.get('job', {}).get('name', 'Unknown Job')`. -/
def jobNameOf (e : Event) : String :=
  match e.job with
  | none => "Unknown Job"
  | some j => j.name.getD "Unknown Job"

/-- Python `event.get('job', {}).get('namespace', '')`. -/
def jobNspaceOf (e : Event) : String :=
  (e.job.bind Job.nspace).getD ""

/-- The job node id `f"job_{job_name}"`. -/
def jobIdOf (e : Event) : String :=
  "job_" ++ jobNameOf e

/-- Python `ds.get('namespace', '')`. -/
def dsNspace (d : DatasetRef) : String :=
  d.nspace.getD ""

/-- Python `ds.get('name', '')`. -/
def dsName (d : DatasetRef) : String :=
  d.name.getD ""

/-- The dataset node id `f"{ds_namespace}/{ds_name}"`. -/
def dsIdOf (d : DatasetRef) : String :=
  dsNspace d ++ "/" ++ dsName d

/-- Python `ds.get('facets', {}).get('schema', {}).get('fields', [])`. -/
def schemaOf (d : DatasetRef) : List SchemaField :=
  ((d.facets.bind Facets.schema).bind SchemaFacet.fields).getD []

/-- Python `ds.get('facets', {}).get('outputStatistics', {})`, kept as an
`Option` so that a missing facet makes every `.get` fall to its default. -/
def statsOf (d : DatasetRef) : Option OutputStatistics :=
  d.facets.bind Facets.outputStatistics

/-- Python `output_stats.get(key, dflt)` where `output_stats` may be the
empty dict. -/
def statGet (stats : Option OutputStatistics) (key : OutputStatistics → Option Int)
    (dflt : StatVal) : StatVal :=
  match stats.bind key with
  | none => dflt
  | some n => StatVal.num n

/-- Step 1 of `extract_lineage_graph`'s event loop: insert the job node if
its id is new; an existing id is left entirely unchanged. -/
def jobStep (st : GState) (event : Event) : GState :=
  let job_name := jobNameOf event
  let job_namespace := jobNspaceOf event
  let job_id := "job_" ++ job_name
  if lookupNode st.nodes job_id = none then
    { st with nodes := st.nodes ++ [(job_id,
        { id := job_id, label := job_name, type := NodeType.job, layer := "job",
          source_system := "Databricks", table_name := none, schema_fields := [],
          details := { nspace := job_namespace,
                       event_time := some (event.eventTime.getD "N/A"),
                       full_name := none, row_count := none, size := none } })] }
  else st

/-- The body of `for input_ds in event.get('inputs', [])`. -/
def processInput (job_id : String) (st : GState) (input_ds : DatasetRef) : GState :=
  let ds_namespace := dsNspace input_ds
  let ds_name := dsName input_ds
  let ds_id := ds_namespace ++ "/" ++ ds_name
  let schema_fields := schemaOf input_ds
  let nodes1 :=
    match lookupNode st.nodes ds_id with
    | none =>
        st.nodes ++ [(ds_id,
          { id := ds_id, label := ds_name, type := NodeType.dataset,
            layer := determine_layer ds_name,
            source_system := extract_source_system ds_namespace,
            table_name := some (get_source_table_name ds_namespace ds_name),
            schema_fields := schema_fields,
            details := { nspace := ds_namespace, event_time := none,
                         full_name := some ds_id,
                         row_count := some StatVal.na, size := some StatVal.na } })]
    | some n =>
        if n.schema_fields = [] ∧ schema_fields ≠ [] then
          updateNode st.nodes ds_id (fun m => { m with schema_fields := schema_fields })
        else st.nodes
  { nodes := nodes1, edges := st.edges ++ [(ds_id, job_id)] }

/-- The body of `for output_ds in event.get('outputs', [])`. -/
def processOutput (job_id : String) (st : GState) (output_ds : DatasetRef) : GState :=
  let ds_namespace := dsNspace output_ds
  let ds_name := dsName output_ds
  let ds_id := ds_namespace ++ "/" ++ ds_name
  let schema_fields := schemaOf output_ds
  let output_stats := statsOf output_ds
  let nodes1 :=
    match lookupNode st.nodes ds_id with
    | none =>
        st.nodes ++ [(ds_id,
          { id := ds_id, label := ds_name, type := NodeType.dataset,
            layer := determine_layer ds_name,
            source_system := extract_source_system ds_namespace,
            table_name := some (get_source_table_name ds_namespace ds_name),
            schema_fields := schema_fields,
            details := { nspace := ds_namespace, event_time := none,
                         full_name := some ds_id,
                         row_count := some (statGet output_stats OutputStatistics.rowCount StatVal.na),
                         size := some (statGet output_stats OutputStatistics.size StatVal.na) } })]
    | some n =>
        let newRow := statGet output_stats OutputStatistics.rowCount (n.details.row_count.getD StatVal.na)
        let newSize := statGet output_stats OutputStatistics.size (n.details.size.getD StatVal.na)
        let nodesA := updateNode st.nodes ds_id
          (fun m => { m with details := { m.details with row_count := some newRow, size := some newSize } })
        if n.schema_fields = [] ∧ schema_fields ≠ [] then
          updateNode nodesA ds_id (fun m => { m with schema_fields := schema_fields })
        else nodesA
  { nodes := nodes1, edges := st.edges ++ [(job_id, ds_id)] }

/-- One iteration of the event loop of `extract_lineage_graph`. -/
def processEvent (st : GState) (event : Event) : GState :=
  let job_id := jobIdOf event
  let st1 := jobStep st event
  let st2 := (event.inputs.getD []).foldl (processInput job_id) st1
  (event.outputs.getD []).foldl (processOutput job_id) st2

/-- `extract_lineage_graph` from `app.py`: a single pass over
`lineage_data.get('events', [])` starting from an empty accumulator. -/
def extract_lineage_graph (lineage_data : LineageData) : GState :=
  (lineage_data.events.getD []).foldl processEvent { nodes := [], edges := [] }

/-- One full pass over the edge list, adding every direct successor of the
current set (the elementary step of forward reachability). -/
def expandFwd (edges : List (String × String)) (s : List String) : List String :=
  edges.foldl (fun acc e => if e.1 ∈ acc ∧ ¬ e.2 ∈ acc then acc ++ [e.2] else acc) s

/-- Iterate a set-expansion step `n` times. -/
def iterExpand (f : List String → List String) : Nat → List String → List String
  | 0, s => s
  | Nat.succ n, s => iterExpand f n (f s)

/-- `nx.descendants(G, v) ∪ {v}`: everything forward-reachable from `v`.
`edges.length` expansion passes saturate, since a shortest path repeats no
edge. -/
def descendantsSet (edges : List (String × String)) (v : String) : List String :=
  iterExpand (expandFwd edges) edges.length [v]

/-- `nx.ancestors(G, v) ∪ {v}`: reachability over the reversed edges. -/
def ancestorsSet (edges : List (String × String)) (v : String) : List String :=
  iterExpand (expandFwd (edges.map (fun e => (e.2, e.1)))) edges.length [v]

/-- The target-search loop of `get_lineage_subgraph`: the first node (in
insertion order) with `type == 'dataset'` and `table_name == selected_table`. -/
def findTarget : List (String × Node) → String → Option String
  | [], _ => none
  | (k, v) :: rest, sel =>
      if v.type = NodeType.dataset ∧ v.table_name = some sel then some k
      else findTarget rest sel

/-- `get_lineage_subgraph` from `app.py`.  `if not target_node_id` is Python
truthiness, so an empty-string id is treated like "no match"; the
`try/except` around `nx.ancestors`/`nx.descendants` fires exactly when the
target occurs in no edge (it is then missing from the `DiGraph` built via
`add_edges_from`), leaving `lineage_nodes = {target}`. -/
def get_lineage_subgraph (nodes : List (String × Node)) (edges : List (String × String))
    (selected_table : String) : List (String × Node) × List (String × String) :=
  if selected_table = "" ∨ selected_table = "All Tables" then (nodes, edges)
  else
    match findTarget nodes selected_table with
    | none => (nodes, edges)
    | some target_node_id =>
        if target_node_id = "" then (nodes, edges)
        else
          let lineage_nodes :=
            if ∃ e ∈ edges, e.1 = target_node_id ∨ e.2 = target_node_id then
              ancestorsSet edges target_node_id ++ descendantsSet edges target_node_id
            else [target_node_id]
          let filtered_nodes := nodes.filter (fun kv => decide (kv.1 ∈ lineage_nodes))
          let filtered_edges := edges.filter
            (fun e => decide (e.1 ∈ lineage_nodes) && decide (e.2 ∈ lineage_nodes))
          (filtered_nodes, filtered_edges)

/-- The ordered keyword table of the layer-classification rule as the spec
states it: `bronze`/`raw`, then `silver`/`clean`, then `gold`/`analytics`,
then the source-system keywords. -/
def layerRules : List (List String × String) :=
  [(["bronze", "raw"], "bronze"),
   (["silver", "clean"], "silver"),
   (["gold", "analytics"], "gold"),
   (["postgres", "sqlserver", "mongodb", "public.", "dbo.", ".csv"], "source")]

/-- First-match-wins evaluation of an ordered keyword rule table against a
lowercased name; no rule matching yields `"unknown"`. -/
def matchRules (nl : String) : List (List String × String) → String
  | [] => "unknown"
  | (kws, layer) :: rest =>
      if kws.any (fun kw => strContains nl kw) then layer else matchRules nl rest

/-- The layer classifier exactly as the spec words it: a pure function of
the dataset's display name, case-insensitive substring match over the
ordered rule table, first match wins, else `"unknown"`.  Written for
comparison against the source's `determine_layer`. -/
def determineLayerSpec (name : String) : String :=
  matchRules name.toLower layerRules

/-- A dataset node whose `table_name` is the literal string `"all"`. -/
def nodeAllTable : Node :=
  { id := "d1", label := "all", type := NodeType.dataset, layer := "unknown",
    source_system := "Unknown", table_name := some "all", schema_fields := [],
    details := { nspace := "", event_time := none, full_name := some "d1",
                 row_count := some StatVal.na, size := some StatVal.na } }

/-- A second, unrelated dataset node. -/
def nodeOtherTable : Node :=
  { id := "d2", label := "o", type := NodeType.dataset, layer := "unknown",
    source_system := "Unknown", table_name := some "o", schema_fields := [],
    details := { nspace := "", event_time := none, full_name := some "d2",
                 row_count := some StatVal.na, size := some StatVal.na } }

/-- A dataset node stored under the empty-string id (legal in a node
mapping; Python truthiness then makes `if not target_node_id` fire). -/
def nodeEmptyId : Node :=
  { id := "", label := "t", type := NodeType.dataset, layer := "unknown",
    source_system := "Unknown", table_name := some "t", schema_fields := [],
    details := { nspace := "", event_time := none, full_name := some "",
                 row_count := some StatVal.na, size := some StatVal.na } }

/-- A dataset node with table name `"t"` under an ordinary non-empty id. -/
def nodeTargetT : Node :=
  { id := "ns/t", label := "t", type := NodeType.dataset, layer := "unknown",
    source_system := "Unknown", table_name := some "t", schema_fields := [],
    details := { nspace := "ns", event_time := none, full_name := some "ns/t",
                 row_count := some StatVal.na, size := some StatVal.na } }

/-- The worked example event of the spec: job `etl1`, one MongoDB input,
one S3 output. -/
def exEvent1 : Event :=
  { job := some { name := some "etl1", nspace := some "jns" },
    eventTime := some "t0",
    inputs := some [{ nspace := some "mongodb://x", name := some "raw.customers", facets := none }],
    outputs := some [{ nspace := some "s3://lake", name := some "bronze/customers", facets := none }] }

/-- The worked example wrapped as `lineage_data`. -/
def exData1 : LineageData := { events := some [exEvent1] }

/-- A concrete schema field used in collision and schema-merge scenarios. -/
def fldC : SchemaField := { name := "c", ftype := "int", description := none }

/-- A second, different concrete schema field. -/
def fldD : SchemaField := { name := "d", ftype := "text", description := none }

/-- An event whose job is named `a/b`, so the job node id is `job_a/b`. -/
def collisionEv1 : Event :=
  { job := some { name := some "a/b", nspace := some "ns" }, eventTime := none,
    inputs := none, outputs := none }

/-- An event of another job whose input dataset has namespace `job_a` and
name `b`, so its dataset id `job_a/b` collides with the job node id; it
carries a non-empty schema. -/
def collisionEv2 : Event :=
  { job := some { name := some "j", nspace := some "ns" }, eventTime := none,
    inputs := some [{ nspace := some "job_a", name := some "b",
                      facets := some { schema := some { fields := some [fldC] },
                                       outputStatistics := none } }],
    outputs := none }

/-- The graph-closure invariant of claim C1: every edge endpoint is a key
of the node dict. -/
def edgesClosed (st : GState) : Prop :=
  ∀ p ∈ st.edges, p.1 ∈ nodeKeys st.nodes ∧ p.2 ∈ nodeKeys st.nodes

/-- The fields of a node that are assigned at creation and (per the spec)
never mutated afterwards. -/
def projFrozen (n : Node) : String × String × NodeType × String × String × Option String :=
  (n.id, n.label, n.type, n.layer, n.source_system, n.table_name)

/-- Node dict `m'` extends `m`: every stored node survives with its frozen
fields intact. -/
def FrozenExt (m m' : List (String × Node)) : Prop :=
  ∀ k n, lookupNode m k = some n →
    ∃ n', lookupNode m' k = some n' ∧ projFrozen n' = projFrozen n

/-- The first non-empty entry of a list of schema-field lists, or `[]`. -/
def firstNonEmptySchema : List (List SchemaField) → List SchemaField
  | [] => []
  | x :: xs => if x = [] then firstNonEmptySchema xs else x

/-- The schema observation a single dataset reference contributes to id
`tid` (one entry when the reference's id is `tid`, none otherwise). -/
def dsObs (tid : String) (d : DatasetRef) : List (List SchemaField) :=
  if dsIdOf d = tid then [schemaOf d] else []

/-- Schema observations of a reference list for id `tid`, in order. -/
def obsOfRefs (tid : String) : List DatasetRef → List (List SchemaField)
  | [] => []
  | d :: rest => dsObs tid d ++ obsOfRefs tid rest

/-- Schema observations of one event for id `tid`: inputs then outputs. -/
def eventObs (tid : String) (e : Event) : List (List SchemaField) :=
  obsOfRefs tid (e.inputs.getD []) ++ obsOfRefs tid (e.outputs.getD [])

/-- Schema observations of an event list for id `tid`, in processing
order. -/
def obsList (tid : String) : List Event → List (List SchemaField)
  | [] => []
  | e :: rest => eventObs tid e ++ obsList tid rest

/-- The schema-merge invariant of claim C9, indexed by the observations
seen so far: every dataset-typed node stores the first non-empty schema
observed for its id, and an id with at least one observation is a key. -/
def SchInv (f : String → List (List SchemaField)) (m : List (String × Node)) : Prop :=
  (∀ tid n, lookupNode m tid = some n → n.type = NodeType.dataset →
      n.schema_fields = firstNonEmptySchema (f tid)) ∧
  (∀ tid, f tid ≠ [] → tid ∈ nodeKeys m)

/-- First event of the schema-merge scenario: the dataset `ns/t` observed
with no schema. -/
def schemaEv1 : Event :=
  { job := some { name := some "j1", nspace := none }, eventTime := none,
    inputs := some [{ nspace := some "ns", name := some "t", facets := none }],
    outputs := none }

/-- Second event: `ns/t` observed with the non-empty schema `[fldC]`. -/
def schemaEv2 : Event :=
  { job := some { name := some "j2", nspace := none }, eventTime := none,
    inputs := some [{ nspace := some "ns", name := some "t",
                      facets := some { schema := some { fields := some [fldC] },
                                       outputStatistics := none } }],
    outputs := none }

/-- Third event: `ns/t` observed with a different non-empty schema
`[fldD]`, which must be ignored. -/
def schemaEv3 : Event :=
  { job := some { name := some "j3", nspace := none }, eventTime := none,
    inputs := some [{ nspace := some "ns", name := some "t",
                      facets := some { schema := some { fields := some [fldD] },
                                       outputStatistics := none } }],
    outputs := none }

/-- The three schema-merge events wrapped as `lineage_data`. -/
def schemaData : LineageData := { events := some [schemaEv1, schemaEv2, schemaEv3] }

theorem nodeKeys_append (m : List (String × Node)) (k : String) (v : Node) :
    nodeKeys (m ++ [(k, v)]) = nodeKeys m ++ [k] := by
  simp [nodeKeys]

theorem nodeKeys_updateNode (m : List (String × Node)) (k : String) (f : Node → Node) :
    nodeKeys (updateNode m k f) = nodeKeys m := by
  induction m with
  | nil => rfl
  | cons p rest ih =>
      obtain ⟨k0, v0⟩ := p
      by_cases hk : k0 = k <;> simp [updateNode, nodeKeys, hk] <;> simpa [nodeKeys] using ih

theorem lookupNode_eq_none_iff {m : List (String × Node)} {k : String} :
    lookupNode m k = none ↔ k ∉ nodeKeys m := by
  induction m with
  | nil => simp [lookupNode, nodeKeys]
  | cons p rest ih =>
      obtain ⟨k0, v0⟩ := p
      by_cases hk : k0 = k <;> simp [lookupNode, nodeKeys, hk, ih] <;> tauto

theorem lookupNode_isSome_iff {m : List (String × Node)} {k : String} :
    (lookupNode m k).isSome ↔ k ∈ nodeKeys m := by
  rw [Option.isSome_iff_ne_none]
  exact not_iff_not.mpr lookupNode_eq_none_iff |>.trans not_not

theorem lookupNode_append_self {m : List (String × Node)} {k : String} (v : Node)
    (h : lookupNode m k = none) : lookupNode (m ++ [(k, v)]) k = some v := by
  induction m with
  | nil => simp [lookupNode]
  | cons p rest ih =>
      obtain ⟨k0, v0⟩ := p
      by_cases hk : k0 = k
      · simp [lookupNode, hk] at h
      · simp only [lookupNode, hk, List.cons_append, if_false] at h ⊢
        exact ih h

theorem lookupNode_append_ne {m : List (String × Node)} {k tid : String} (v : Node)
    (h : tid ≠ k) : lookupNode (m ++ [(k, v)]) tid = lookupNode m tid := by
  induction m with
  | nil => simp [lookupNode, Ne.symm h]
  | cons p rest ih =>
      obtain ⟨k0, v0⟩ := p
      by_cases hk : k0 = tid <;> simp [lookupNode, hk, ih]

theorem lookupNode_updateNode_self {m : List (String × Node)} {k : String} {v : Node}
    (f : Node → Node) (h : lookupNode m k = some v) :
    lookupNode (updateNode m k f) k = some (f v) := by
  induction m with
  | nil => simp [lookupNode] at h
  | cons p rest ih =>
      obtain ⟨k0, v0⟩ := p
      by_cases hk : k0 = k
      · simp [lookupNode, hk] at h
        simp [updateNode, lookupNode, hk, h]
      · simp only [lookupNode, if_neg hk] at h
        simp only [updateNode, if_neg hk, lookupNode]
        exact ih h

theorem lookupNode_updateNode_ne {m : List (String × Node)} {k tid : String}
    (f : Node → Node) (h : tid ≠ k) :
    lookupNode (updateNode m k f) tid = lookupNode m tid := by
  induction m with
  | nil => rfl
  | cons p rest ih =>
      obtain ⟨k0, v0⟩ := p
      by_cases hk : k0 = k
      · subst hk
        simp [updateNode, lookupNode, Ne.symm h]
      · by_cases hk2 : k0 = tid <;> simp [updateNode, lookupNode, hk, hk2, h, ih]

theorem foldl_pres {α β : Type} {P : β → Prop} {f : β → α → β}
    (hf : ∀ b a, P b → P (f b a)) :
    ∀ (l : List α) (b : β), P b → P (l.foldl f b)
  | [], _, hb => hb
  | a :: l, b, hb => foldl_pres hf l (f b a) (hf b a hb)

theorem processInput_edges (jid : String) (st : GState) (d : DatasetRef) :
    (processInput jid st d).edges = st.edges ++ [(dsIdOf d, jid)] := rfl

theorem processOutput_edges (jid : String) (st : GState) (d : DatasetRef) :
    (processOutput jid st d).edges = st.edges ++ [(jid, dsIdOf d)] := rfl

theorem jobStep_edges (st : GState) (e : Event) :
    (jobStep st e).edges = st.edges := by
  unfold jobStep
  dsimp only
  split <;> rfl

theorem foldl_processInput_edges (jid : String) (l : List DatasetRef) (st : GState) :
    (l.foldl (processInput jid) st).edges
      = st.edges ++ l.map (fun i => (dsIdOf i, jid)) := by
  induction l generalizing st with
  | nil => simp
  | cons d rest ih =>
      rw [List.foldl_cons, ih, processInput_edges]
      simp

theorem foldl_processOutput_edges (jid : String) (l : List DatasetRef) (st : GState) :
    (l.foldl (processOutput jid) st).edges
      = st.edges ++ l.map (fun o => (jid, dsIdOf o)) := by
  induction l generalizing st with
  | nil => simp
  | cons d rest ih =>
      rw [List.foldl_cons, ih, processOutput_edges]
      simp

theorem processEvent_edges (st : GState) (e : Event) :
    (processEvent st e).edges
      = st.edges ++ (e.inputs.getD []).map (fun i => (dsIdOf i, jobIdOf e))
          ++ (e.outputs.getD []).map (fun o => (jobIdOf e, dsIdOf o)) := by
  unfold processEvent
  rw [foldl_processOutput_edges, foldl_processInput_edges, jobStep_edges]

theorem processInput_keys_mono {k : String} (jid : String) (st : GState) (d : DatasetRef)
    (h : k ∈ nodeKeys st.nodes) : k ∈ nodeKeys (processInput jid st d).nodes := by
  cases hl : lookupNode st.nodes (dsNspace d ++ "/" ++ dsName d) with
  | none =>
      simp only [processInput, hl]
      rw [nodeKeys_append]
      exact List.mem_append_left _ h
  | some n =>
      simp only [processInput, hl]
      split <;> simp [nodeKeys_updateNode, h]

theorem processOutput_keys_mono {k : String} (jid : String) (st : GState) (d : DatasetRef)
    (h : k ∈ nodeKeys st.nodes) : k ∈ nodeKeys (processOutput jid st d).nodes := by
  cases hl : lookupNode st.nodes (dsNspace d ++ "/" ++ dsName d) with
  | none =>
      simp only [processOutput, hl]
      rw [nodeKeys_append]
      exact List.mem_append_left _ h
  | some n =>
      simp only [processOutput, hl]
      split <;> simp [nodeKeys_updateNode, h]

theorem jobStep_keys_mono {k : String} (st : GState) (e : Event)
    (h : k ∈ nodeKeys st.nodes) : k ∈ nodeKeys (jobStep st e).nodes := by
  unfold jobStep
  dsimp only
  split
  · rw [nodeKeys_append]
    exact List.mem_append_left _ h
  · exact h

theorem processEvent_keys_mono {k : String} (st : GState) (e : Event)
    (h : k ∈ nodeKeys st.nodes) : k ∈ nodeKeys (processEvent st e).nodes := by
  unfold processEvent
  apply foldl_pres (P := fun s => k ∈ nodeKeys s.nodes)
    (fun b a hb => processOutput_keys_mono _ b a hb)
  apply foldl_pres (P := fun s => k ∈ nodeKeys s.nodes)
    (fun b a hb => processInput_keys_mono _ b a hb)
  exact jobStep_keys_mono st e h

theorem processInput_dsid_mem (jid : String) (st : GState) (d : DatasetRef) :
    dsIdOf d ∈ nodeKeys (processInput jid st d).nodes := by
  cases hl : lookupNode st.nodes (dsNspace d ++ "/" ++ dsName d) with
  | none =>
      simp only [processInput, hl]
      rw [nodeKeys_append]
      exact List.mem_append_right _ (by simp [dsIdOf])
  | some n =>
      have hm : dsIdOf d ∈ nodeKeys st.nodes := by
        rw [← lookupNode_isSome_iff]
        simp [dsIdOf, hl]
      exact processInput_keys_mono jid st d hm

theorem processOutput_dsid_mem (jid : String) (st : GState) (d : DatasetRef) :
    dsIdOf d ∈ nodeKeys (processOutput jid st d).nodes := by
  cases hl : lookupNode st.nodes (dsNspace d ++ "/" ++ dsName d) with
  | none =>
      simp only [processOutput, hl]
      rw [nodeKeys_append]
      exact List.mem_append_right _ (by simp [dsIdOf])
  | some n =>
      have hm : dsIdOf d ∈ nodeKeys st.nodes := by
        rw [← lookupNode_isSome_iff]
        simp [dsIdOf, hl]
      exact processOutput_keys_mono jid st d hm

theorem jobStep_jobid_mem (st : GState) (e : Event) :
    jobIdOf e ∈ nodeKeys (jobStep st e).nodes := by
  unfold jobStep
  dsimp only
  split
  case isTrue hl =>
      rw [nodeKeys_append]
      exact List.mem_append_right _ (by simp [jobIdOf])
  case isFalse hl =>
      rw [← lookupNode_isSome_iff, Option.isSome_iff_ne_none]
      exact hl

theorem processInput_closed (jid : String) (st : GState) (d : DatasetRef)
    (hjid : jid ∈ nodeKeys st.nodes) (hc : edgesClosed st) :
    edgesClosed (processInput jid st d) := by
  intro p hp
  rw [processInput_edges] at hp
  rcases List.mem_append.mp hp with h | h
  · obtain ⟨h1, h2⟩ := hc p h
    exact ⟨processInput_keys_mono _ _ _ h1, processInput_keys_mono _ _ _ h2⟩
  · obtain rfl : p = (dsIdOf d, jid) := by simpa using h
    exact ⟨processInput_dsid_mem _ _ _, processInput_keys_mono _ _ _ hjid⟩

theorem processOutput_closed (jid : String) (st : GState) (d : DatasetRef)
    (hjid : jid ∈ nodeKeys st.nodes) (hc : edgesClosed st) :
    edgesClosed (processOutput jid st d) := by
  intro p hp
  rw [processOutput_edges] at hp
  rcases List.mem_append.mp hp with h | h
  · obtain ⟨h1, h2⟩ := hc p h
    exact ⟨processOutput_keys_mono _ _ _ h1, processOutput_keys_mono _ _ _ h2⟩
  · obtain rfl : p = (jid, dsIdOf d) := by simpa using h
    exact ⟨processOutput_keys_mono _ _ _ hjid, processOutput_dsid_mem _ _ _⟩

theorem jobStep_closed (st : GState) (e : Event) (hc : edgesClosed st) :
    edgesClosed (jobStep st e) := by
  intro p hp
  rw [jobStep_edges] at hp
  obtain ⟨h1, h2⟩ := hc p hp
  exact ⟨jobStep_keys_mono _ _ h1, jobStep_keys_mono _ _ h2⟩

theorem processEvent_closed (st : GState) (e : Event) (hc : edgesClosed st) :
    edgesClosed (processEvent st e) := by
  unfold processEvent
  have h1 : edgesClosed (jobStep st e) ∧ jobIdOf e ∈ nodeKeys (jobStep st e).nodes :=
    ⟨jobStep_closed st e hc, jobStep_jobid_mem st e⟩
  have h2 := foldl_pres
    (P := fun s => edgesClosed s ∧ jobIdOf e ∈ nodeKeys s.nodes)
    (fun b a hb => ⟨processInput_closed _ b a hb.2 hb.1, processInput_keys_mono _ b a hb.2⟩)
    (e.inputs.getD []) (jobStep st e) h1
  exact (foldl_pres
    (P := fun s => edgesClosed s ∧ jobIdOf e ∈ nodeKeys s.nodes)
    (fun b a hb => ⟨processOutput_closed _ b a hb.2 hb.1, processOutput_keys_mono _ b a hb.2⟩)
    (e.outputs.getD []) _ h2).1

/-- C1: in the graph returned by `extract_lineage_graph`, both endpoints of
every edge are keys of the node mapping (nodes are inserted before or at
the step that appends any edge naming them). -/
theorem C1_edge_endpoints_present (d : LineageData) :
    ∀ p ∈ (extract_lineage_graph d).edges,
      p.1 ∈ nodeKeys (extract_lineage_graph d).nodes ∧
      p.2 ∈ nodeKeys (extract_lineage_graph d).nodes := by
  have h : edgesClosed (extract_lineage_graph d) := by
    unfold extract_lineage_graph
    refine foldl_pres (fun b a hb => processEvent_closed b a hb) _ _ ?_
    intro p hp
    simp at hp
  exact h

/-- C1 witness: in the extracted graph of the worked example, both
endpoints of its first edge are present as node keys. -/
theorem C1_witness :
    ("mongodb://x/raw.customers" ∈ nodeKeys (extract_lineage_graph exData1).nodes) ∧
    ("job_etl1" ∈ nodeKeys (extract_lineage_graph exData1).nodes) :=
  C1_edge_endpoints_present exData1 ("mongodb://x/raw.customers", "job_etl1") (by decide)

/-- C2: `determine_layer` is a pure function of the dataset display name
alone (its only argument; the namespace plays no role), and it agrees with
the spec's ordered, case-insensitive, first-match-wins keyword table:
`bronze`/`raw` then `silver`/`clean` then `gold`/`analytics` then the
source keywords, else `unknown`. -/
theorem C2_determine_layer_matches_spec (name : String) :
    determine_layer name = determineLayerSpec name := by
  simp only [determine_layer, determineLayerSpec, layerRules, matchRules,
    List.any_cons, List.any_nil, Bool.or_false]

theorem processInput_keys_of_mem (jid : String) (st : GState) (d : DatasetRef)
    (h : dsIdOf d ∈ nodeKeys st.nodes) :
    nodeKeys (processInput jid st d).nodes = nodeKeys st.nodes := by
  rw [← lookupNode_isSome_iff] at h
  simp only [dsIdOf] at h
  cases hl : lookupNode st.nodes (dsNspace d ++ "/" ++ dsName d) with
  | none => rw [hl] at h; simp at h
  | some n =>
      simp only [processInput, hl]
      split
      · exact nodeKeys_updateNode _ _ _
      · rfl

theorem processOutput_keys_of_mem (jid : String) (st : GState) (d : DatasetRef)
    (h : dsIdOf d ∈ nodeKeys st.nodes) :
    nodeKeys (processOutput jid st d).nodes = nodeKeys st.nodes := by
  rw [← lookupNode_isSome_iff] at h
  simp only [dsIdOf] at h
  cases hl : lookupNode st.nodes (dsNspace d ++ "/" ++ dsName d) with
  | none => rw [hl] at h; simp at h
  | some n =>
      simp only [processOutput, hl]
      split <;> simp [nodeKeys_updateNode]

theorem jobStep_of_mem (st : GState) (e : Event)
    (h : jobIdOf e ∈ nodeKeys st.nodes) : jobStep st e = st := by
  rw [← lookupNode_isSome_iff] at h
  have hne : ¬ lookupNode st.nodes ("job_" ++ jobNameOf e) = none := by
    simp only [jobIdOf] at h
    intro hnone
    rw [hnone] at h
    simp at h
  unfold jobStep
  dsimp only
  rw [if_neg hne]

theorem foldl_processInput_ids (jid : String) (l : List DatasetRef) (st : GState) :
    ∀ i ∈ l, dsIdOf i ∈ nodeKeys ((l.foldl (processInput jid) st)).nodes := by
  induction l generalizing st with
  | nil => intro i hi; simp at hi
  | cons d rest ih =>
      intro i hi
      rw [List.foldl_cons]
      rcases List.mem_cons.mp hi with rfl | hi2
      · exact foldl_pres (P := fun s => dsIdOf i ∈ nodeKeys s.nodes)
          (fun b a hb => processInput_keys_mono _ b a hb) rest _
          (processInput_dsid_mem jid st i)
      · exact ih _ i hi2

theorem foldl_processOutput_ids (jid : String) (l : List DatasetRef) (st : GState) :
    ∀ o ∈ l, dsIdOf o ∈ nodeKeys ((l.foldl (processOutput jid) st)).nodes := by
  induction l generalizing st with
  | nil => intro o ho; simp at ho
  | cons d rest ih =>
      intro o ho
      rw [List.foldl_cons]
      rcases List.mem_cons.mp ho with rfl | ho2
      · exact foldl_pres (P := fun s => dsIdOf o ∈ nodeKeys s.nodes)
          (fun b a hb => processOutput_keys_mono _ b a hb) rest _
          (processOutput_dsid_mem jid st o)
      · exact ih _ o ho2

theorem processEvent_jobid_mem (st : GState) (e : Event) :
    jobIdOf e ∈ nodeKeys (processEvent st e).nodes := by
  unfold processEvent
  apply foldl_pres (P := fun s => jobIdOf e ∈ nodeKeys s.nodes)
    (fun b a hb => processOutput_keys_mono _ b a hb)
  apply foldl_pres (P := fun s => jobIdOf e ∈ nodeKeys s.nodes)
    (fun b a hb => processInput_keys_mono _ b a hb)
  exact jobStep_jobid_mem st e

theorem processEvent_input_ids (st : GState) (e : Event) :
    ∀ i ∈ e.inputs.getD [], dsIdOf i ∈ nodeKeys (processEvent st e).nodes := by
  intro i hi
  unfold processEvent
  apply foldl_pres (P := fun s => dsIdOf i ∈ nodeKeys s.nodes)
    (fun b a hb => processOutput_keys_mono _ b a hb)
  exact foldl_processInput_ids _ _ _ i hi

theorem processEvent_output_ids (st : GState) (e : Event) :
    ∀ o ∈ e.outputs.getD [], dsIdOf o ∈ nodeKeys (processEvent st e).nodes := by
  intro o ho
  unfold processEvent
  exact foldl_processOutput_ids _ _ _ o ho

theorem foldl_processInput_keys_stable (jid : String) (l : List DatasetRef) (st : GState)
    (h : ∀ i ∈ l, dsIdOf i ∈ nodeKeys st.nodes) :
    nodeKeys ((l.foldl (processInput jid) st)).nodes = nodeKeys st.nodes := by
  induction l generalizing st with
  | nil => rfl
  | cons d rest ih =>
      rw [List.foldl_cons]
      have h1 := processInput_keys_of_mem jid st d (h d (List.mem_cons_self d rest))
      rw [ih _ (fun i hi => by rw [h1]; exact h i (List.mem_cons_of_mem d hi)), h1]

theorem foldl_processOutput_keys_stable (jid : String) (l : List DatasetRef) (st : GState)
    (h : ∀ o ∈ l, dsIdOf o ∈ nodeKeys st.nodes) :
    nodeKeys ((l.foldl (processOutput jid) st)).nodes = nodeKeys st.nodes := by
  induction l generalizing st with
  | nil => rfl
  | cons d rest ih =>
      rw [List.foldl_cons]
      have h1 := processOutput_keys_of_mem jid st d (h d (List.mem_cons_self d rest))
      rw [ih _ (fun o ho => by rw [h1]; exact h o (List.mem_cons_of_mem d ho)), h1]

theorem processEvent_keys_stable (st : GState) (e : Event)
    (hjob : jobIdOf e ∈ nodeKeys st.nodes)
    (hin : ∀ i ∈ e.inputs.getD [], dsIdOf i ∈ nodeKeys st.nodes)
    (hout : ∀ o ∈ e.outputs.getD [], dsIdOf o ∈ nodeKeys st.nodes) :
    nodeKeys (processEvent st e).nodes = nodeKeys st.nodes := by
  unfold processEvent
  dsimp only
  rw [jobStep_of_mem st e hjob]
  have h1 := foldl_processInput_keys_stable (jobIdOf e) (e.inputs.getD []) st hin
  rw [foldl_processOutput_keys_stable _ _ _ (fun o ho => by rw [h1]; exact hout o ho), h1]

/-- C3: `extract_lineage_graph` is a pure function, so calling it twice on
the same event list from fresh state yields identical node mappings and
edge lists; and reprocessing the same event a second time within one call
creates no new node keys (existing job and dataset ids are reused) while
appending exactly one edge per input entry and one per output entry of the
repeated event. -/
theorem C3_extract_deterministic_and_reprocessing (d : LineageData) (st : GState) (e : Event) :
    extract_lineage_graph d = extract_lineage_graph d ∧
    nodeKeys (processEvent (processEvent st e) e).nodes
      = nodeKeys (processEvent st e).nodes ∧
    (processEvent (processEvent st e) e).edges
      = (processEvent st e).edges
        ++ (e.inputs.getD []).map (fun i => (dsIdOf i, jobIdOf e))
        ++ (e.outputs.getD []).map (fun o => (jobIdOf e, dsIdOf o)) := by
  refine ⟨rfl, ?_, processEvent_edges _ e⟩
  exact processEvent_keys_stable _ e (processEvent_jobid_mem st e)
    (processEvent_input_ids st e) (processEvent_output_ids st e)

/-- C4 (amended): the selectors that act as the identity are the empty
string and the code's actual sentinel `"All Tables"`. -/
theorem C4_sentinel_identity (nodes : List (String × Node)) (edges : List (String × String)) :
    get_lineage_subgraph nodes edges "" = (nodes, edges) ∧
    get_lineage_subgraph nodes edges "All Tables" = (nodes, edges) := by
  constructor <;> simp [get_lineage_subgraph]

/-- C4 counterexample: the literal selector `"all"` is not the sentinel, so
on a graph that contains a dataset whose `table_name` is `"all"` the
restriction filters the graph instead of returning it unchanged. -/
theorem C4_counterexample :
    get_lineage_subgraph [("d1", nodeAllTable), ("d2", nodeOtherTable)] [] "all"
      ≠ ([("d1", nodeAllTable), ("d2", nodeOtherTable)], []) := by
  decide

theorem findTarget_eq_none {nodes : List (String × Node)} {sel : String}
    (h : ∀ kv ∈ nodes, ¬(kv.2.type = NodeType.dataset ∧ kv.2.table_name = some sel)) :
    findTarget nodes sel = none := by
  induction nodes with
  | nil => rfl
  | cons p rest ih =>
      obtain ⟨k0, v0⟩ := p
      have h0 := h (k0, v0) (List.mem_cons_self _ _)
      simp only [findTarget, if_neg h0]
      exact ih (fun kv hkv => h kv (List.mem_cons_of_mem _ hkv))

/-- C5: a non-empty, non-sentinel selector that matches no dataset node's
`table_name` makes `get_lineage_subgraph` return the original unfiltered
nodes and edges unchanged (deliberate fallback, not an empty graph and not
an error). -/
theorem C5_no_match_returns_unfiltered (nodes : List (String × Node))
    (edges : List (String × String)) (sel : String)
    (hne : sel ≠ "") (hsent : sel ≠ "All Tables")
    (h : ∀ kv ∈ nodes, ¬(kv.2.type = NodeType.dataset ∧ kv.2.table_name = some sel)) :
    get_lineage_subgraph nodes edges sel = (nodes, edges) := by
  unfold get_lineage_subgraph
  rw [if_neg (by simp [hne, hsent])]
  rw [findTarget_eq_none h]

/-- C5 witness: the selector `"zzz"` matches nothing in a one-node graph
and the graph comes back unchanged. -/
theorem C5_witness :
    get_lineage_subgraph [("d2", nodeOtherTable)] [("d2", "d2")] "zzz"
      = ([("d2", nodeOtherTable)], [("d2", "d2")]) :=
  C5_no_match_returns_unfiltered _ _ _ (by decide) (by decide) (by decide)

theorem filter_key_singleton {nodes : List (String × Node)} {tid : String} {tnode : Node}
    (hnd : (nodeKeys nodes).Nodup) (hlk : lookupNode nodes tid = some tnode) :
    nodes.filter (fun kv => decide (kv.1 ∈ ([tid] : List String))) = [(tid, tnode)] := by
  induction nodes with
  | nil => simp [lookupNode] at hlk
  | cons p rest ih =>
      obtain ⟨k0, v0⟩ := p
      simp only [nodeKeys, List.map_cons, List.nodup_cons] at hnd
      by_cases hk : k0 = tid
      · subst hk
        simp only [lookupNode, if_pos rfl] at hlk
        obtain rfl := Option.some.inj hlk
        simp only [List.filter_cons]
        rw [if_pos (by simp)]
        have hrest : rest.filter (fun kv => decide (kv.1 ∈ ([k0] : List String))) = [] := by
          rw [List.filter_eq_nil_iff]
          intro kv hkv
          simp only [List.mem_singleton, decide_eq_true_eq]
          intro hkk
          exact hnd.1 (hkk ▸ List.mem_map_of_mem Prod.fst hkv)
        rw [hrest]
      · simp only [lookupNode, if_neg hk] at hlk
        simp only [List.filter_cons]
        rw [if_neg (by simp [hk])]
        exact ih hnd.2 hlk

/-- C6 counterexample: the claim fails when the matched dataset node's id
is the empty string, because `if not target_node_id` in the source treats
the falsy empty string like "no match" and returns the whole graph instead
of the singleton. -/
theorem C6_counterexample :
    findTarget [("", nodeEmptyId), ("d2", nodeOtherTable)] "t" = some "" ∧
    nodeEmptyId.type = NodeType.dataset ∧
    get_lineage_subgraph [("", nodeEmptyId), ("d2", nodeOtherTable)] [] "t"
      ≠ ([("", nodeEmptyId)], []) := by
  decide

/-- C6 (amended): when the first dataset node matching the selector has a
non-empty id and appears in no edge (neither as source nor target), the
restriction returns exactly the singleton node mapping holding that node
together with an empty edge list. -/
theorem C6_isolated_target_singleton (nodes : List (String × Node))
    (edges : List (String × String)) (sel tid : String) (tnode : Node)
    (hne : sel ≠ "") (hsent : sel ≠ "All Tables")
    (hnd : (nodeKeys nodes).Nodup)
    (hft : findTarget nodes sel = some tid) (htid : tid ≠ "")
    (hlk : lookupNode nodes tid = some tnode)
    (hedge : ∀ e ∈ edges, e.1 ≠ tid ∧ e.2 ≠ tid) :
    get_lineage_subgraph nodes edges sel = ([(tid, tnode)], []) := by
  unfold get_lineage_subgraph
  rw [if_neg (by simp [hne, hsent]), hft]
  dsimp only
  rw [if_neg htid]
  have hex : ¬ ∃ e ∈ edges, e.1 = tid ∨ e.2 = tid := by
    rintro ⟨e, he, h1 | h2⟩
    · exact (hedge e he).1 h1
    · exact (hedge e he).2 h2
  rw [if_neg hex]
  refine Prod.ext ?_ ?_
  · exact filter_key_singleton hnd hlk
  · rw [List.filter_eq_nil_iff]
    intro e he
    simp only [List.mem_singleton, Bool.and_eq_true, decide_eq_true_eq, not_and]
    intro h1
    exact absurd h1 (hedge e he).1

/-- C6 witness: a two-node graph whose only edge avoids the target shrinks
to the singleton target with no edges. -/
theorem C6_witness :
    get_lineage_subgraph [("ns/t", nodeTargetT), ("d2", nodeOtherTable)]
        [("d2", "d2")] "t"
      = ([("ns/t", nodeTargetT)], []) :=
  C6_isolated_target_singleton _ _ _ _ nodeTargetT (by decide) (by decide) (by decide)
    (by decide) (by decide) (by decide) (by decide)

/-- C8: an absent or empty event list yields the empty graph; a missing
`job` object defaults the job name to `"Unknown Job"` and the job namespace
to `""`; a missing dataset namespace defaults to `""`; missing facets give
an empty schema and no statistics; a missing statistics facet makes every
statistic the `"N/A"` sentinel, in particular an output dataset created
without statistics stores `row_count = size = N/A`.  (The embedding is a
total function, mirroring that the extraction never raises.) -/
theorem C8_empty_and_default_handling :
    extract_lineage_graph { events := none } = { nodes := [], edges := [] } ∧
    extract_lineage_graph { events := some [] } = { nodes := [], edges := [] } ∧
    (∀ e : Event, e.job = none → jobNameOf e = "Unknown Job" ∧ jobNspaceOf e = "") ∧
    (∀ d : DatasetRef, d.nspace = none → dsNspace d = "") ∧
    (∀ d : DatasetRef, d.facets = none → schemaOf d = [] ∧ statsOf d = none) ∧
    (∀ st : Option OutputStatistics, st = none →
        statGet st OutputStatistics.rowCount StatVal.na = StatVal.na ∧
        statGet st OutputStatistics.size StatVal.na = StatVal.na) ∧
    (∀ (jid : String) (st : GState) (d : DatasetRef),
        lookupNode st.nodes (dsIdOf d) = none → statsOf d = none →
        (lookupNode (processOutput jid st d).nodes (dsIdOf d)).map
            (fun n => (n.details.row_count, n.details.size))
          = some (some StatVal.na, some StatVal.na)) := by
  refine ⟨rfl, rfl, ?_, ?_, ?_, ?_, ?_⟩
  · intro e h
    simp [jobNameOf, jobNspaceOf, h]
  · intro d h
    simp [dsNspace, h]
  · intro d h
    simp [schemaOf, statsOf, h]
  · intro st h
    simp [statGet, h]
  · intro jid st d hlk hst
    simp only [dsIdOf] at hlk ⊢
    simp only [processOutput, hst, hlk]
    simp [lookupNode_append_self _ hlk, statGet]

/-- C8 witness: the defaults evaluated at concrete degenerate inputs. -/
theorem C8_witness :
    jobNameOf { job := none, eventTime := none, inputs := none, outputs := none } = "Unknown Job" ∧
    dsNspace { nspace := none, name := none, facets := none } = "" ∧
    statGet none OutputStatistics.rowCount StatVal.na = StatVal.na := by
  refine ⟨?_, ?_, ?_⟩
  · exact (C8_empty_and_default_handling.2.2.1 _ rfl).1
  · exact C8_empty_and_default_handling.2.2.2.1 _ rfl
  · exact (C8_empty_and_default_handling.2.2.2.2.2.1 _ rfl).1

theorem frozenExt_refl (m : List (String × Node)) : FrozenExt m m :=
  fun _ n h => ⟨n, h, rfl⟩

theorem frozenExt_trans {a b c : List (String × Node)}
    (h1 : FrozenExt a b) (h2 : FrozenExt b c) : FrozenExt a c := by
  intro k n h
  obtain ⟨n1, hb, e1⟩ := h1 k n h
  obtain ⟨n2, hc, e2⟩ := h2 k n1 hb
  exact ⟨n2, hc, e2.trans e1⟩

theorem jobStep_frozenExt (st : GState) (e : Event) :
    FrozenExt st.nodes (jobStep st e).nodes := by
  intro k n h
  unfold jobStep
  dsimp only
  split
  case isTrue hl =>
      by_cases hk : k = "job_" ++ jobNameOf e
      · subst hk
        rw [h] at hl
        cases hl
      · exact ⟨n, by rw [lookupNode_append_ne _ hk]; exact h, rfl⟩
  case isFalse hl => exact ⟨n, h, rfl⟩

theorem processInput_frozenExt (jid : String) (st : GState) (d : DatasetRef) :
    FrozenExt st.nodes (processInput jid st d).nodes := by
  intro k n h
  cases hl : lookupNode st.nodes (dsNspace d ++ "/" ++ dsName d) with
  | none =>
      simp only [processInput, hl]
      by_cases hk : k = dsNspace d ++ "/" ++ dsName d
      · subst hk
        rw [h] at hl
        cases hl
      · exact ⟨n, by rw [lookupNode_append_ne _ hk]; exact h, rfl⟩
  | some n0 =>
      simp only [processInput, hl]
      split
      · by_cases hk : k = dsNspace d ++ "/" ++ dsName d
        · subst hk
          exact ⟨_, lookupNode_updateNode_self _ h, rfl⟩
        · exact ⟨n, by rw [lookupNode_updateNode_ne _ hk]; exact h, rfl⟩
      · exact ⟨n, h, rfl⟩

theorem processOutput_frozenExt (jid : String) (st : GState) (d : DatasetRef) :
    FrozenExt st.nodes (processOutput jid st d).nodes := by
  intro k n h
  cases hl : lookupNode st.nodes (dsNspace d ++ "/" ++ dsName d) with
  | none =>
      simp only [processOutput, hl]
      by_cases hk : k = dsNspace d ++ "/" ++ dsName d
      · subst hk
        rw [h] at hl
        cases hl
      · exact ⟨n, by rw [lookupNode_append_ne _ hk]; exact h, rfl⟩
  | some n0 =>
      simp only [processOutput, hl]
      by_cases hk : k = dsNspace d ++ "/" ++ dsName d
      · subst hk
        split
        · exact ⟨_, lookupNode_updateNode_self _ (lookupNode_updateNode_self _ h), rfl⟩
        · exact ⟨_, lookupNode_updateNode_self _ h, rfl⟩
      · split
        · exact ⟨n, by rw [lookupNode_updateNode_ne _ hk, lookupNode_updateNode_ne _ hk]; exact h, rfl⟩
        · exact ⟨n, by rw [lookupNode_updateNode_ne _ hk]; exact h, rfl⟩

theorem foldl_frozenExt {α : Type} {f : GState → α → GState}
    (hf : ∀ st a, FrozenExt st.nodes (f st a).nodes) (l : List α) (st : GState) :
    FrozenExt st.nodes ((l.foldl f st)).nodes := by
  induction l generalizing st with
  | nil => exact frozenExt_refl _
  | cons a rest ih => exact frozenExt_trans (hf st a) (ih (f st a))

theorem processEvent_frozenExt (st : GState) (e : Event) :
    FrozenExt st.nodes (processEvent st e).nodes := by
  unfold processEvent
  dsimp only
  refine frozenExt_trans (jobStep_frozenExt st e) ?_
  refine frozenExt_trans (foldl_frozenExt
    (fun s a => processInput_frozenExt (jobIdOf e) s a) (e.inputs.getD []) (jobStep st e)) ?_
  exact foldl_frozenExt (fun s a => processOutput_frozenExt (jobIdOf e) s a) (e.outputs.getD []) _

/-- C7 (amended): (i) once any node is created, later events never change
its `id`, `label`, `type`, `layer`, `source_system` or `table_name` (only
`schema_fields` and `details` can change); (ii) the job-processing step
never touches an existing job id — first-seen wins for job creation; (iii)
when a later output observation carries no statistics facet, `row_count`
and `size` fall back to the previously stored values.  (The unqualified
"job nodes are never updated after first creation" is refuted by
`C7_counterexample`: a colliding dataset observation can update a job
node's `schema_fields` and `details`.) -/
theorem C7_frozen_fields_and_stat_fallback :
    (∀ (evs1 evs2 : List Event) (k : String) (n : Node),
        lookupNode (extract_lineage_graph { events := some evs1 }).nodes k = some n →
        ∃ n', lookupNode (extract_lineage_graph { events := some (evs1 ++ evs2) }).nodes k
                = some n' ∧
          n'.id = n.id ∧ n'.label = n.label ∧ n'.type = n.type ∧ n'.layer = n.layer ∧
          n'.source_system = n.source_system ∧ n'.table_name = n.table_name) ∧
    (∀ (st : GState) (e : Event),
        jobIdOf e ∈ nodeKeys st.nodes → jobStep st e = st) ∧
    (∀ (jid : String) (st : GState) (d : DatasetRef) (n : Node) (r s : StatVal),
        lookupNode st.nodes (dsIdOf d) = some n → statsOf d = none →
        n.details.row_count = some r → n.details.size = some s →
        ∃ n', lookupNode (processOutput jid st d).nodes (dsIdOf d) = some n' ∧
          n'.details.row_count = some r ∧ n'.details.size = some s) := by
  refine ⟨?_, jobStep_of_mem, ?_⟩
  · intro evs1 evs2 k n h
    have hext : FrozenExt (extract_lineage_graph { events := some evs1 }).nodes
        (extract_lineage_graph { events := some (evs1 ++ evs2) }).nodes := by
      show FrozenExt ((evs1.foldl processEvent { nodes := [], edges := [] })).nodes
        (((evs1 ++ evs2).foldl processEvent { nodes := [], edges := [] })).nodes
      rw [List.foldl_append]
      exact foldl_frozenExt (fun s a => processEvent_frozenExt s a) evs2 _
    obtain ⟨n', h1, h2⟩ := hext k n h
    refine ⟨n', h1, ?_⟩
    simpa [projFrozen, Prod.ext_iff] using h2
  · intro jid st d n r s hlk hst hr hs
    simp only [dsIdOf] at hlk
    simp only [processOutput, hlk, hst]
    split
    · refine ⟨_, lookupNode_updateNode_self _ (lookupNode_updateNode_self _ hlk), ?_, ?_⟩ <;>
        simp [statGet, hr, hs]
    · refine ⟨_, lookupNode_updateNode_self _ hlk, ?_, ?_⟩ <;>
        simp [statGet, hr, hs]

/-- C7 counterexample: the job node `job_a/b` is created by the first event
with an empty schema and later updated in place through the colliding
dataset id of the second event, so job nodes are not immune to updates
after first creation. -/
theorem C7_counterexample :
    (lookupNode (extract_lineage_graph { events := some [collisionEv1] }).nodes "job_a/b").map
        (fun n => (n.type, n.schema_fields)) = some (NodeType.job, []) ∧
    (lookupNode (extract_lineage_graph { events := some [collisionEv1, collisionEv2] }).nodes
        "job_a/b").map
        (fun n => (n.type, n.schema_fields)) = some (NodeType.job, [fldC]) := by
  decide

/-- C7 witness: the job-creation step at a concrete state with the job id
already present returns the state unchanged. -/
theorem C7_witness :
    jobStep (extract_lineage_graph exData1) exEvent1 = extract_lineage_graph exData1 :=
  C7_frozen_fields_and_stat_fallback.2.1 _ exEvent1 (by decide)

theorem firstNonEmptySchema_single (x : List SchemaField) :
    firstNonEmptySchema [x] = x := by
  by_cases hx : x = [] <;> simp [firstNonEmptySchema, hx]

theorem firstNonEmptySchema_append (a b : List (List SchemaField)) :
    firstNonEmptySchema (a ++ b)
      = if firstNonEmptySchema a = [] then firstNonEmptySchema b
        else firstNonEmptySchema a := by
  induction a with
  | nil => simp [firstNonEmptySchema]
  | cons x xs ih =>
      by_cases hx : x = []
      · simp [firstNonEmptySchema, hx, ih]
      · simp [firstNonEmptySchema, hx]

theorem schInv_congr {f g : String → List (List SchemaField)} {m : List (String × Node)}
    (hfg : ∀ tid, f tid = g tid) (h : SchInv f m) : SchInv g m := by
  constructor
  · intro tid n h1 h2
    rw [← hfg]
    exact h.1 tid n h1 h2
  · intro tid hne
    exact h.2 tid (by rw [hfg]; exact hne)

theorem jobStep_schInv {f : String → List (List SchemaField)} {st : GState} (e : Event)
    (h : SchInv f st.nodes) : SchInv f (jobStep st e).nodes := by
  constructor
  · intro tid n h1 h2
    unfold jobStep at h1
    dsimp only at h1
    split at h1
    case isTrue hl =>
        by_cases hk : tid = "job_" ++ jobNameOf e
        · subst hk
          rw [lookupNode_append_self _ hl] at h1
          obtain rfl := Option.some.inj h1
          cases h2
        · rw [lookupNode_append_ne _ hk] at h1
          exact h.1 tid n h1 h2
    case isFalse hl => exact h.1 tid n h1 h2
  · intro tid hne
    exact jobStep_keys_mono st e (h.2 tid hne)

theorem processInput_schInv {f : String → List (List SchemaField)} (jid : String)
    (st : GState) (d : DatasetRef) (h : SchInv f st.nodes) :
    SchInv (fun tid => f tid ++ dsObs tid d) (processInput jid st d).nodes := by
  have hrw : dsIdOf d = dsNspace d ++ "/" ++ dsName d := rfl
  cases hl : lookupNode st.nodes (dsNspace d ++ "/" ++ dsName d) with
  | none =>
      have hfnil : f (dsNspace d ++ "/" ++ dsName d) = [] := by
        by_contra hne
        exact (lookupNode_eq_none_iff.mp hl) (h.2 _ hne)
      constructor
      · intro tid n h1 h2
        simp only [processInput, hl] at h1
        simp only []
        by_cases hk : tid = dsNspace d ++ "/" ++ dsName d
        · subst hk
          rw [lookupNode_append_self _ hl] at h1
          obtain rfl := Option.some.inj h1
          show schemaOf d = _
          rw [hfnil, List.nil_append]
          simp [dsObs, hrw, firstNonEmptySchema_single]
        · rw [lookupNode_append_ne _ hk] at h1
          have hobs : dsObs tid d = [] := by
            simp only [dsObs, hrw]
            rw [if_neg (fun hh => hk hh.symm)]
          rw [hobs, List.append_nil]
          exact h.1 tid n h1 h2
      · intro tid hne
        simp only [processInput, hl]
        rw [nodeKeys_append]
        by_cases hk : tid = dsNspace d ++ "/" ++ dsName d
        · subst hk
          exact List.mem_append_right _ (by simp)
        · have hobs : dsObs tid d = [] := by
            simp only [dsObs, hrw]
            rw [if_neg (fun hh => hk hh.symm)]
          simp only [hobs, List.append_nil] at hne
          exact List.mem_append_left _ (h.2 tid hne)
  | some n0 =>
      constructor
      · intro tid n h1 h2
        simp only [processInput, hl] at h1
        simp only []
        by_cases hk : tid = dsNspace d ++ "/" ++ dsName d
        · subst hk
          have hobs : dsObs (dsNspace d ++ "/" ++ dsName d) d = [schemaOf d] := by
            simp [dsObs, hrw]
          rw [hobs, firstNonEmptySchema_append, firstNonEmptySchema_single]
          by_cases hc : n0.schema_fields = [] ∧ schemaOf d ≠ []
          · rw [if_pos hc, lookupNode_updateNode_self _ hl] at h1
            obtain rfl := Option.some.inj h1
            have hty : n0.type = NodeType.dataset := h2
            have hinv := h.1 _ n0 hl hty
            rw [if_pos (by rw [← hinv]; exact hc.1)]
          · rw [if_neg hc, hl] at h1
            obtain rfl := Option.some.inj h1
            have hinv := h.1 _ n0 hl h2
            by_cases hsf : n0.schema_fields = []
            · have hsd : schemaOf d = [] := by
                by_contra hsd
                exact hc ⟨hsf, hsd⟩
              rw [if_pos (by rw [← hinv]; exact hsf), hsd, hsf]
            · rw [if_neg (by rw [← hinv]; exact hsf)]
              exact hinv
        · have hlk2 : lookupNode st.nodes tid = some n := by
            split at h1
            · rwa [lookupNode_updateNode_ne _ hk] at h1
            · exact h1
          have hobs : dsObs tid d = [] := by
            simp only [dsObs, hrw]
            rw [if_neg (fun hh => hk hh.symm)]
          rw [hobs, List.append_nil]
          exact h.1 tid n hlk2 h2
      · intro tid hne
        have hkeys : nodeKeys (processInput jid st d).nodes = nodeKeys st.nodes := by
          simp only [processInput, hl]
          split
          · exact nodeKeys_updateNode _ _ _
          · rfl
        rw [hkeys]
        by_cases hk : tid = dsNspace d ++ "/" ++ dsName d
        · subst hk
          rw [← lookupNode_isSome_iff]
          simp [hl]
        · have hobs : dsObs tid d = [] := by
            simp only [dsObs, hrw]
            rw [if_neg (fun hh => hk hh.symm)]
          simp only [hobs, List.append_nil] at hne
          exact h.2 tid hne

theorem processOutput_schInv {f : String → List (List SchemaField)} (jid : String)
    (st : GState) (d : DatasetRef) (h : SchInv f st.nodes) :
    SchInv (fun tid => f tid ++ dsObs tid d) (processOutput jid st d).nodes := by
  have hrw : dsIdOf d = dsNspace d ++ "/" ++ dsName d := rfl
  cases hl : lookupNode st.nodes (dsNspace d ++ "/" ++ dsName d) with
  | none =>
      have hfnil : f (dsNspace d ++ "/" ++ dsName d) = [] := by
        by_contra hne
        exact (lookupNode_eq_none_iff.mp hl) (h.2 _ hne)
      constructor
      · intro tid n h1 h2
        simp only [processOutput, hl] at h1
        simp only []
        by_cases hk : tid = dsNspace d ++ "/" ++ dsName d
        · subst hk
          rw [lookupNode_append_self _ hl] at h1
          obtain rfl := Option.some.inj h1
          show schemaOf d = _
          rw [hfnil, List.nil_append]
          simp [dsObs, hrw, firstNonEmptySchema_single]
        · rw [lookupNode_append_ne _ hk] at h1
          have hobs : dsObs tid d = [] := by
            simp only [dsObs, hrw]
            rw [if_neg (fun hh => hk hh.symm)]
          rw [hobs, List.append_nil]
          exact h.1 tid n h1 h2
      · intro tid hne
        simp only [processOutput, hl]
        rw [nodeKeys_append]
        by_cases hk : tid = dsNspace d ++ "/" ++ dsName d
        · subst hk
          exact List.mem_append_right _ (by simp)
        · have hobs : dsObs tid d = [] := by
            simp only [dsObs, hrw]
            rw [if_neg (fun hh => hk hh.symm)]
          simp only [hobs, List.append_nil] at hne
          exact List.mem_append_left _ (h.2 tid hne)
  | some n0 =>
      constructor
      · intro tid n h1 h2
        simp only [processOutput, hl] at h1
        simp only []
        by_cases hk : tid = dsNspace d ++ "/" ++ dsName d
        · subst hk
          have hobs : dsObs (dsNspace d ++ "/" ++ dsName d) d = [schemaOf d] := by
            simp [dsObs, hrw]
          rw [hobs, firstNonEmptySchema_append, firstNonEmptySchema_single]
          by_cases hc : n0.schema_fields = [] ∧ schemaOf d ≠ []
          · rw [if_pos hc, lookupNode_updateNode_self _ (lookupNode_updateNode_self _ hl)] at h1
            obtain rfl := Option.some.inj h1
            have hty : n0.type = NodeType.dataset := h2
            have hinv := h.1 _ n0 hl hty
            show schemaOf d = _
            rw [if_pos (by rw [← hinv]; exact hc.1)]
          · rw [if_neg hc, lookupNode_updateNode_self _ hl] at h1
            obtain rfl := Option.some.inj h1
            have hty : n0.type = NodeType.dataset := h2
            have hinv := h.1 _ n0 hl hty
            show n0.schema_fields = _
            by_cases hsf : n0.schema_fields = []
            · have hsd : schemaOf d = [] := by
                by_contra hsd
                exact hc ⟨hsf, hsd⟩
              rw [if_pos (by rw [← hinv]; exact hsf), hsd, hsf]
            · rw [if_neg (by rw [← hinv]; exact hsf)]
              exact hinv
        · have hlk2 : lookupNode st.nodes tid = some n := by
            split at h1
            · rw [lookupNode_updateNode_ne _ hk, lookupNode_updateNode_ne _ hk] at h1
              exact h1
            · rwa [lookupNode_updateNode_ne _ hk] at h1
          have hobs : dsObs tid d = [] := by
            simp only [dsObs, hrw]
            rw [if_neg (fun hh => hk hh.symm)]
          rw [hobs, List.append_nil]
          exact h.1 tid n hlk2 h2
      · intro tid hne
        have hkeys : nodeKeys (processOutput jid st d).nodes = nodeKeys st.nodes := by
          simp only [processOutput, hl]
          split <;> simp [nodeKeys_updateNode]
        rw [hkeys]
        by_cases hk : tid = dsNspace d ++ "/" ++ dsName d
        · subst hk
          rw [← lookupNode_isSome_iff]
          simp [hl]
        · have hobs : dsObs tid d = [] := by
            simp only [dsObs, hrw]
            rw [if_neg (fun hh => hk hh.symm)]
          simp only [hobs, List.append_nil] at hne
          exact h.2 tid hne

theorem foldl_processInput_schInv {f : String → List (List SchemaField)} (jid : String)
    (l : List DatasetRef) (st : GState) (h : SchInv f st.nodes) :
    SchInv (fun tid => f tid ++ obsOfRefs tid l) ((l.foldl (processInput jid) st)).nodes := by
  induction l generalizing f st with
  | nil => exact schInv_congr (fun tid => by simp [obsOfRefs]) h
  | cons d rest ih =>
      rw [List.foldl_cons]
      have h1 := processInput_schInv jid st d h
      have h2 := ih (processInput jid st d) h1
      exact schInv_congr (fun tid => by simp [obsOfRefs, List.append_assoc]) h2

theorem foldl_processOutput_schInv {f : String → List (List SchemaField)} (jid : String)
    (l : List DatasetRef) (st : GState) (h : SchInv f st.nodes) :
    SchInv (fun tid => f tid ++ obsOfRefs tid l) ((l.foldl (processOutput jid) st)).nodes := by
  induction l generalizing f st with
  | nil => exact schInv_congr (fun tid => by simp [obsOfRefs]) h
  | cons d rest ih =>
      rw [List.foldl_cons]
      have h1 := processOutput_schInv jid st d h
      have h2 := ih (processOutput jid st d) h1
      exact schInv_congr (fun tid => by simp [obsOfRefs, List.append_assoc]) h2

theorem processEvent_schInv {f : String → List (List SchemaField)} (st : GState) (e : Event)
    (h : SchInv f st.nodes) :
    SchInv (fun tid => f tid ++ eventObs tid e) (processEvent st e).nodes := by
  unfold processEvent
  dsimp only
  have h1 := jobStep_schInv e h
  have h2 := foldl_processInput_schInv (jobIdOf e) (e.inputs.getD []) (jobStep st e) h1
  have h3 := foldl_processOutput_schInv (jobIdOf e) (e.outputs.getD []) _ h2
  exact schInv_congr (fun tid => by simp [eventObs, List.append_assoc]) h3

theorem foldl_processEvent_schInv {f : String → List (List SchemaField)}
    (evs : List Event) (st : GState) (h : SchInv f st.nodes) :
    SchInv (fun tid => f tid ++ obsList tid evs) ((evs.foldl processEvent st)).nodes := by
  induction evs generalizing f st with
  | nil => exact schInv_congr (fun tid => by simp [obsList]) h
  | cons e rest ih =>
      rw [List.foldl_cons]
      have h1 := processEvent_schInv st e h
      have h2 := ih (processEvent st e) h1
      exact schInv_congr (fun tid => by simp [obsList, List.append_assoc]) h2

/-- C9: for every dataset-typed node of the extracted graph, the stored
`schema_fields` is the first non-empty schema observed for that id in
processing order (or `[]` when every observation was empty); in particular
a later non-empty schema differing from an already-stored non-empty one is
silently ignored. -/
theorem C9_schema_is_first_non_empty (d : LineageData) (tid : String) (n : Node)
    (h : lookupNode (extract_lineage_graph d).nodes tid = some n)
    (hty : n.type = NodeType.dataset) :
    n.schema_fields = firstNonEmptySchema (obsList tid (d.events.getD [])) := by
  have h0 : SchInv (fun _ => []) ([] : List (String × Node)) := by
    constructor
    · intro tid' n' h1 h2
      simp [lookupNode] at h1
    · intro tid' hne
      simp at hne
  have h1 := foldl_processEvent_schInv (d.events.getD []) { nodes := [], edges := [] } h0
  have h2 : SchInv (fun t => obsList t (d.events.getD []))
      (((d.events.getD []).foldl processEvent { nodes := [], edges := [] })).nodes :=
    schInv_congr (fun t => by simp) h1
  exact h2.1 tid n h hty

/-- C9 witness: in the three-event schema scenario the node `ns/t` stores
the first non-empty schema, matching the observation list. -/
theorem C9_witness :
    (lookupNode (extract_lineage_graph schemaData).nodes "ns/t").map Node.schema_fields
      = some (firstNonEmptySchema (obsList "ns/t" (schemaData.events.getD []))) := by
  have hsome : (lookupNode (extract_lineage_graph schemaData).nodes "ns/t").isSome = true := by
    decide
  obtain ⟨n, hn⟩ := Option.isSome_iff_exists.mp hsome
  have hmap : (lookupNode (extract_lineage_graph schemaData).nodes "ns/t").map Node.type
      = some NodeType.dataset := by decide
  have hty : n.type = NodeType.dataset := by
    rw [hn] at hmap
    simpa using hmap
  have hres := C9_schema_is_first_non_empty schemaData "ns/t" n hn hty
  rw [hn]
  simp [hres]

/-- C10: node ids do not encode the node type, so a job named `a/b` and a
dataset reference `{namespace: job_a, name: b}` both map to the id
`job_a/b`; on such an event list the dataset observation is merged into the
existing job node (no separate dataset node appears, the stored node keeps
type `job`) and the appended edge references the shared id. -/
theorem C10_job_dataset_id_collision :
    nodeKeys (extract_lineage_graph { events := some [collisionEv1, collisionEv2] }).nodes
      = ["job_a/b", "job_j"] ∧
    (lookupNode (extract_lineage_graph { events := some [collisionEv1, collisionEv2] }).nodes
        "job_a/b").map Node.type = some NodeType.job ∧
    (extract_lineage_graph { events := some [collisionEv1, collisionEv2] }).edges
      = [("job_a/b", "job_j")] := by
  decide

end Lineage
